import Mathlib

/-!
# ansi_colours: true-colour to ANSI 256-colour palette conversion

A shallow embedding of `vendor/ansi_colours/src/ansi256.c`.  C machine
integers are natural numbers (unsigned) or integers (signed) with the
wrap-around written out at every operation.
-/

namespace Ansi256

/-! ## Machine integers -/

/-- Value of a C expression of type `uint32_t`. -/
def u32 (n : Nat) : Nat := n % 0x100000000

/-- Value of a C expression of type `uint8_t`. -/
def u8 (n : Nat) : Nat := n % 0x100

/-- Value of a C expression of type `int32_t` (two's complement wrap). -/
def i32 (z : Int) : Int := (z + 0x80000000) % 0x100000000 - 0x80000000

/-- Conversion of an `int32_t` value to `uint32_t`. -/
def u32_of_i32 (z : Int) : Nat := (z % 0x100000000).toNat

/-! ## Channel accessors: `#define R(c)`, `G(c)`, `B(c)` -/

/-- The macro `R(c)`, that is `(((c) >> 16) & 0xff)`. -/
def R (c : Nat) : Nat := (c >>> 16) &&& 0xff

/-- The macro `G(c)`, that is `(((c) >> 8) & 0xff)`. -/
def G (c : Nat) : Nat := (c >>> 8) &&& 0xff

/-- The macro `B(c)`, that is `((c) & 0xff)`. -/
def B (c : Nat) : Nat := c &&& 0xff

/-! ## The forward table -/

/-- The static table `colours[256]` of `rgb_from_ansi256`: 16 system colours,
the 6x6x6 cube, the greyscale ramp. -/
def colours : List Nat := [
  0x000000, 0xcd0000, 0x00cd00, 0xcdcd00,
  0x0000ee, 0xcd00cd, 0x00cdcd, 0xe5e5e5,
  0x7f7f7f, 0xff0000, 0x00ff00, 0xffff00,
  0x5c5cff, 0xff00ff, 0x00ffff, 0xffffff,
  0x000000, 0x00005f, 0x000087, 0x0000af,
  0x0000d7, 0x0000ff, 0x005f00, 0x005f5f,
  0x005f87, 0x005faf, 0x005fd7, 0x005fff,
  0x008700, 0x00875f, 0x008787, 0x0087af,
  0x0087d7, 0x0087ff, 0x00af00, 0x00af5f,
  0x00af87, 0x00afaf, 0x00afd7, 0x00afff,
  0x00d700, 0x00d75f, 0x00d787, 0x00d7af,
  0x00d7d7, 0x00d7ff, 0x00ff00, 0x00ff5f,
  0x00ff87, 0x00ffaf, 0x00ffd7, 0x00ffff,
  0x5f0000, 0x5f005f, 0x5f0087, 0x5f00af,
  0x5f00d7, 0x5f00ff, 0x5f5f00, 0x5f5f5f,
  0x5f5f87, 0x5f5faf, 0x5f5fd7, 0x5f5fff,
  0x5f8700, 0x5f875f, 0x5f8787, 0x5f87af,
  0x5f87d7, 0x5f87ff, 0x5faf00, 0x5faf5f,
  0x5faf87, 0x5fafaf, 0x5fafd7, 0x5fafff,
  0x5fd700, 0x5fd75f, 0x5fd787, 0x5fd7af,
  0x5fd7d7, 0x5fd7ff, 0x5fff00, 0x5fff5f,
  0x5fff87, 0x5fffaf, 0x5fffd7, 0x5fffff,
  0x870000, 0x87005f, 0x870087, 0x8700af,
  0x8700d7, 0x8700ff, 0x875f00, 0x875f5f,
  0x875f87, 0x875faf, 0x875fd7, 0x875fff,
  0x878700, 0x87875f, 0x878787, 0x8787af,
  0x8787d7, 0x8787ff, 0x87af00, 0x87af5f,
  0x87af87, 0x87afaf, 0x87afd7, 0x87afff,
  0x87d700, 0x87d75f, 0x87d787, 0x87d7af,
  0x87d7d7, 0x87d7ff, 0x87ff00, 0x87ff5f,
  0x87ff87, 0x87ffaf, 0x87ffd7, 0x87ffff,
  0xaf0000, 0xaf005f, 0xaf0087, 0xaf00af,
  0xaf00d7, 0xaf00ff, 0xaf5f00, 0xaf5f5f,
  0xaf5f87, 0xaf5faf, 0xaf5fd7, 0xaf5fff,
  0xaf8700, 0xaf875f, 0xaf8787, 0xaf87af,
  0xaf87d7, 0xaf87ff, 0xafaf00, 0xafaf5f,
  0xafaf87, 0xafafaf, 0xafafd7, 0xafafff,
  0xafd700, 0xafd75f, 0xafd787, 0xafd7af,
  0xafd7d7, 0xafd7ff, 0xafff00, 0xafff5f,
  0xafff87, 0xafffaf, 0xafffd7, 0xafffff,
  0xd70000, 0xd7005f, 0xd70087, 0xd700af,
  0xd700d7, 0xd700ff, 0xd75f00, 0xd75f5f,
  0xd75f87, 0xd75faf, 0xd75fd7, 0xd75fff,
  0xd78700, 0xd7875f, 0xd78787, 0xd787af,
  0xd787d7, 0xd787ff, 0xd7af00, 0xd7af5f,
  0xd7af87, 0xd7afaf, 0xd7afd7, 0xd7afff,
  0xd7d700, 0xd7d75f, 0xd7d787, 0xd7d7af,
  0xd7d7d7, 0xd7d7ff, 0xd7ff00, 0xd7ff5f,
  0xd7ff87, 0xd7ffaf, 0xd7ffd7, 0xd7ffff,
  0xff0000, 0xff005f, 0xff0087, 0xff00af,
  0xff00d7, 0xff00ff, 0xff5f00, 0xff5f5f,
  0xff5f87, 0xff5faf, 0xff5fd7, 0xff5fff,
  0xff8700, 0xff875f, 0xff8787, 0xff87af,
  0xff87d7, 0xff87ff, 0xffaf00, 0xffaf5f,
  0xffaf87, 0xffafaf, 0xffafd7, 0xffafff,
  0xffd700, 0xffd75f, 0xffd787, 0xffd7af,
  0xffd7d7, 0xffd7ff, 0xffff00, 0xffff5f,
  0xffff87, 0xffffaf, 0xffffd7, 0xffffff,
  0x080808, 0x121212, 0x1c1c1c, 0x262626,
  0x303030, 0x3a3a3a, 0x444444, 0x4e4e4e,
  0x585858, 0x626262, 0x6c6c6c, 0x767676,
  0x808080, 0x8a8a8a, 0x949494, 0x9e9e9e,
  0xa8a8a8, 0xb2b2b2, 0xbcbcbc, 0xc6c6c6,
  0xd0d0d0, 0xdadada, 0xe4e4e4, 0xeeeeee
]

/-- The function `rgb_from_ansi256(uint8_t index)`: `colours[index]`. -/
def rgb_from_ansi256 (index : Nat) : Nat := colours.getD (u8 index) 0

/-! ## The matcher -/

/-- The static table `ansi256_from_grey[256]` of `ansi256_from_rgb`. -/
def ansi256_from_grey : List Nat := [
   16,  16,  16,  16,  16, 232, 232, 232,
  232, 232, 232, 232, 232, 232, 233, 233,
  233, 233, 233, 233, 233, 233, 233, 233,
  234, 234, 234, 234, 234, 234, 234, 234,
  234, 234, 235, 235, 235, 235, 235, 235,
  235, 235, 235, 235, 236, 236, 236, 236,
  236, 236, 236, 236, 236, 236, 237, 237,
  237, 237, 237, 237, 237, 237, 237, 237,
  238, 238, 238, 238, 238, 238, 238, 238,
  238, 238, 239, 239, 239, 239, 239, 239,
  239, 239, 239, 239, 240, 240, 240, 240,
  240, 240, 240, 240,  59,  59,  59,  59,
   59, 241, 241, 241, 241, 241, 241, 241,
  242, 242, 242, 242, 242, 242, 242, 242,
  242, 242, 243, 243, 243, 243, 243, 243,
  243, 243, 243, 244, 244, 244, 244, 244,
  244, 244, 244, 244, 102, 102, 102, 102,
  102, 245, 245, 245, 245, 245, 245, 246,
  246, 246, 246, 246, 246, 246, 246, 246,
  246, 247, 247, 247, 247, 247, 247, 247,
  247, 247, 247, 248, 248, 248, 248, 248,
  248, 248, 248, 248, 145, 145, 145, 145,
  145, 249, 249, 249, 249, 249, 249, 250,
  250, 250, 250, 250, 250, 250, 250, 250,
  250, 251, 251, 251, 251, 251, 251, 251,
  251, 251, 251, 252, 252, 252, 252, 252,
  252, 252, 252, 252, 188, 188, 188, 188,
  188, 253, 253, 253, 253, 253, 253, 254,
  254, 254, 254, 254, 254, 254, 254, 254,
  254, 255, 255, 255, 255, 255, 255, 255,
  255, 255, 255, 255, 255, 255, 255, 231,
  231, 231, 231, 231, 231, 231, 231, 231
]

/-- The macro `CUBE_THRESHOLDS(a, b, c, d, e)`, with the `IDX` macro in force
at the point of use passed as a function. -/
def CUBE_THRESHOLDS (IDX : Nat → Nat → Nat) (a b c d e v : Nat) : Nat :=
  if v < a then IDX 0 0
  else if v < b then IDX 1 95
  else if v < c then IDX 2 135
  else if v < d then IDX 3 175
  else if v < e then IDX 4 215
  else IDX 5 255

/-- The macro `IDX(i, v)` of `cube_index_red`:
`((((uint32_t)i * 36 + 16) << 24) | ((uint32_t)v << 16))`. -/
def IDX_red (i v : Nat) : Nat := u32 (u32 (u32 (i * 36) + 16) <<< 24) ||| u32 (v <<< 16)

/-- The macro `IDX(i, v)` of `cube_index_green`:
`((((uint32_t)i * 6) << 24) | ((uint32_t)v << 8))`. -/
def IDX_green (i v : Nat) : Nat := u32 (u32 (i * 6) <<< 24) ||| u32 (v <<< 8)

/-- The macro `IDX(i, v)` of `cube_index_blue`:
`(((uint32_t)i << 24) | (uint32_t)v)`. -/
def IDX_blue (i v : Nat) : Nat := u32 (i <<< 24) ||| u32 v

/-- The function `cube_index_red(uint8_t v)`. -/
def cube_index_red (v : Nat) : Nat := CUBE_THRESHOLDS IDX_red 38 115 155 196 235 (u8 v)

/-- The function `cube_index_green(uint8_t v)`. -/
def cube_index_green (v : Nat) : Nat := CUBE_THRESHOLDS IDX_green 36 116 154 195 235 (u8 v)

/-- The function `cube_index_blue(uint8_t v)`. -/
def cube_index_blue (v : Nat) : Nat := CUBE_THRESHOLDS IDX_blue 35 115 155 195 235 (u8 v)

/-- The function `luminance(uint32_t rgb)`, returning `uint8_t`. -/
def luminance (rgb : Nat) : Nat :=
  let v := u32 (u32 (u32 (3567664 * R rgb) + u32 (11998547 * G rgb)) + u32 (1211005 * B rgb))
  u8 (u32 (v + u32 (1 <<< 23)) >>> 24)

/-- The function `distance(uint32_t x, uint32_t y)`: the arithmetic is done in
`int32_t` and the result converted to `uint32_t` on return. -/
def distance (x y : Nat) : Nat :=
  let r_sum : Int := i32 (u32 (R x + R y))
  let r : Int := i32 (i32 (R x) - i32 (R y))
  let g : Int := i32 (i32 (G x) - i32 (G y))
  let b : Int := i32 (i32 (B x) - i32 (B y))
  u32_of_i32 (i32 (i32 (i32 (i32 (i32 (1024 + r_sum) * r) * r) + i32 (i32 (2048 * g) * g))
    + i32 (i32 (i32 (1534 - r_sum) * b) * b)))

/-- The function `ansi256_from_rgb(uint32_t rgb)`, returning `uint8_t`. -/
def ansi256_from_rgb (rgb : Nat) : Nat :=
  let grey_index := ansi256_from_grey.getD (luminance rgb) 0
  let grey_distance := distance rgb (rgb_from_ansi256 grey_index)
  let cube := u32 (u32 (cube_index_red (R rgb) + cube_index_green (G rgb)) + cube_index_blue (B rgb))
  u8 (if distance rgb cube < grey_distance then cube >>> 24 else grey_index)

/-- The local variable `grey_index` of `ansi256_from_rgb`. -/
def grey_index (rgb : Nat) : Nat := ansi256_from_grey.getD (luminance rgb) 0

/-- The local variable `cube` of `ansi256_from_rgb`: index in the top byte,
cube colour in the low 24 bits. -/
def cube (rgb : Nat) : Nat :=
  u32 (u32 (cube_index_red (R rgb) + cube_index_green (G rgb)) + cube_index_blue (B rgb))

/-! ## Vocabulary of the specification -/

/-- The six component values of a cube axis, `[0, 95, 135, 175, 215, 255]`. -/
def cube_values : List Nat := [0, 95, 135, 175, 215, 255]

/-- Component value of cube level `l`. -/
def cube_value (l : Nat) : Nat := cube_values.getD l 0

/-- A packed `0xRRGGBB` value with the given channel bytes. -/
def packed (r g b : Nat) : Nat := r * 0x10000 + g * 0x100 + b

/-- Boundaries of the red channel. -/
def red_boundaries : List Nat := [38, 115, 155, 196, 235]

/-- Boundaries of the green channel. -/
def green_boundaries : List Nat := [36, 116, 154, 195, 235]

/-- Boundaries of the blue channel. -/
def blue_boundaries : List Nat := [35, 115, 155, 195, 235]

/-- Quantised level of a channel value as the specification words it: below
the first boundary level 0, above the last level 5, between consecutive
boundaries levels 1 to 4, a value on a boundary going to the higher level;
that is, the number of boundaries not above the value. -/
def spec_level (boundaries : List Nat) (v : Nat) : Nat :=
  boundaries.countP (fun b => b ≤ v)

/-- The matcher as the specification describes it (section 4.5): grey
candidate from the luminance, cube candidate from the quantised levels, the
cube candidate winning only when strictly nearer. -/
def spec_approximate (color : Nat) : Nat :=
  let greyIndex := ansi256_from_grey.getD (luminance color) 0
  let greyDistance := distance color (rgb_from_ansi256 greyIndex)
  let lr := spec_level red_boundaries (R color)
  let lg := spec_level green_boundaries (G color)
  let lb := spec_level blue_boundaries (B color)
  let cubeIndex := 16 + 36 * lr + 6 * lg + lb
  let cubeRepresentative := packed (cube_value lr) (cube_value lg) (cube_value lb)
  let cubeDistance := distance color cubeRepresentative
  if cubeDistance < greyDistance then cubeIndex else greyIndex

/-- Pure-grey palette indices outside the system colours: the cube diagonal
and the greyscale ramp. -/
def is_grey_index (j : Nat) : Prop :=
  j ∈ [16, 59, 102, 145, 188, 231] ∨ (232 ≤ j ∧ j ≤ 255)

instance (j : Nat) : Decidable (is_grey_index j) := by
  unfold is_grey_index; infer_instance

/-- The weighted sum of squared channel differences that `distance` computes,
over the mathematical integers. -/
def distance_formula (rx gx bx ry gy by_ : Int) : Int :=
  (1024 + (rx + ry)) * (rx - ry) ^ 2 + 2048 * (gx - gy) ^ 2
    + (1534 - (rx + ry)) * (bx - by_) ^ 2

/-- Grey level of a palette index: the red byte of its colour. -/
def grey_level (j : Nat) : Nat := R (rgb_from_ansi256 j)

/-- The thirty grey levels of the cube diagonal and of the greyscale ramp. -/
def grey_levels : List Nat :=
  [0, 95, 135, 175, 215, 255, 8, 18, 28, 38, 48, 58, 68, 78, 88, 98, 108, 118, 128, 138, 148,
    158, 168, 178, 188, 198, 208, 218, 228, 238]

/-- Values representable in `int32_t`. -/
def in_i32 (z : Int) : Prop := -0x80000000 ≤ z ∧ z < 0x80000000

/-- A colour whose three channel bytes agree. -/
def is_pure_grey (c : Nat) : Prop := R c = G c ∧ G c = B c

instance (c : Nat) : Decidable (is_pure_grey c) := by
  unfold is_pure_grey; infer_instance

/-! ## Channel accessors -/

theorem R_eq (c : Nat) : R c = c / 0x10000 % 0x100 := by
  unfold R
  rw [Nat.shiftRight_eq_div_pow]
  exact Nat.and_pow_two_sub_one_eq_mod _ 8

theorem G_eq (c : Nat) : G c = c / 0x100 % 0x100 := by
  unfold G
  rw [Nat.shiftRight_eq_div_pow]
  exact Nat.and_pow_two_sub_one_eq_mod _ 8

theorem B_eq (c : Nat) : B c = c % 0x100 := by
  unfold B
  exact Nat.and_pow_two_sub_one_eq_mod _ 8

theorem R_lt (c : Nat) : R c < 256 := by rw [R_eq]; omega

theorem G_lt (c : Nat) : G c < 256 := by rw [G_eq]; omega

theorem B_lt (c : Nat) : B c < 256 := by rw [B_eq]; omega

theorem R_packed (r g b : Nat) (hr : r < 256) (hg : g < 256) (hb : b < 256) :
    R (packed r g b) = r := by
  rw [R_eq]; unfold packed; omega

theorem G_packed (r g b : Nat) (hg : g < 256) (hb : b < 256) :
    G (packed r g b) = g := by
  rw [G_eq]; unfold packed; omega

theorem B_packed (r g b : Nat) (hb : b < 256) : B (packed r g b) = b := by
  rw [B_eq]; unfold packed; omega

/-! ## Machine arithmetic without wrap-around -/

theorem i32_eq_self (z : Int) (h1 : -0x80000000 ≤ z) (h2 : z < 0x80000000) : i32 z = z := by
  unfold i32; omega

theorem u32_eq_self (n : Nat) (h : n < 0x100000000) : u32 n = n := by
  unfold u32; omega

theorem u8_eq_self (n : Nat) (h : n < 0x100) : u8 n = n := by
  unfold u8; omega

theorem u32_of_i32_eq (z : Int) (h1 : 0 ≤ z) (h2 : z < 0x100000000) :
    (u32_of_i32 z : Int) = z := by
  unfold u32_of_i32; omega

/-- One weighted term of the distance: with a weight of at most 2048 and a
channel difference of magnitude at most 255, neither the product nor the
product times the difference again leaves the `int32_t` range. -/
theorem weighted_sq_bounds (w d : Int) (hw0 : 0 ≤ w) (hw : w ≤ 2048) (hd1 : -255 ≤ d)
    (hd2 : d ≤ 255) :
    -522240 ≤ w * d ∧ w * d ≤ 522240 ∧ 0 ≤ w * d * d ∧ w * d * d ≤ 133171200 := by
  have hdd : d * d ≤ 65025 := by nlinarith
  have hdd0 : 0 ≤ d * d := mul_self_nonneg d
  refine ⟨by nlinarith, by nlinarith, ?_, ?_⟩
  · rw [mul_assoc]; exact mul_nonneg hw0 hdd0
  · rw [mul_assoc]; nlinarith

/-- The `int32_t` evaluation of the distance expression on channel bytes
never wraps: it is the exact weighted sum. -/
theorem distance_core (rx gx bx ry gy by_ : Int)
    (hrx : 0 ≤ rx ∧ rx < 256) (hgx : 0 ≤ gx ∧ gx < 256) (hbx : 0 ≤ bx ∧ bx < 256)
    (hry : 0 ≤ ry ∧ ry < 256) (hgy : 0 ≤ gy ∧ gy < 256) (hby : 0 ≤ by_ ∧ by_ < 256) :
    i32 (i32 (i32 (i32 (i32 (1024 + (rx + ry)) * (rx - ry)) * (rx - ry))
        + i32 (i32 (2048 * (gx - gy)) * (gx - gy)))
      + i32 (i32 (i32 (1534 - (rx + ry)) * (bx - by_)) * (bx - by_)))
      = distance_formula rx gx bx ry gy by_
    ∧ 0 ≤ distance_formula rx gx bx ry gy by_
    ∧ distance_formula rx gx bx ry gy by_ < 0x80000000 := by
  obtain ⟨r1, r2, r3, r4⟩ := weighted_sq_bounds (1024 + (rx + ry)) (rx - ry)
    (by omega) (by omega) (by omega) (by omega)
  obtain ⟨g1, g2, g3, g4⟩ := weighted_sq_bounds 2048 (gx - gy)
    (by omega) (by omega) (by omega) (by omega)
  obtain ⟨b1, b2, b3, b4⟩ := weighted_sq_bounds (1534 - (rx + ry)) (bx - by_)
    (by omega) (by omega) (by omega) (by omega)
  have e : distance_formula rx gx bx ry gy by_
      = (1024 + (rx + ry)) * (rx - ry) * (rx - ry) + 2048 * (gx - gy) * (gx - gy)
        + (1534 - (rx + ry)) * (bx - by_) * (bx - by_) := by
    unfold distance_formula; ring
  rw [e]
  refine ⟨?_, by omega, by omega⟩
  rw [i32_eq_self (1024 + (rx + ry)) (by omega) (by omega),
    i32_eq_self (1534 - (rx + ry)) (by omega) (by omega),
    i32_eq_self ((1024 + (rx + ry)) * (rx - ry)) (by omega) (by omega),
    i32_eq_self ((1024 + (rx + ry)) * (rx - ry) * (rx - ry)) (by omega) (by omega),
    i32_eq_self (2048 * (gx - gy)) (by omega) (by omega),
    i32_eq_self (2048 * (gx - gy) * (gx - gy)) (by omega) (by omega),
    i32_eq_self ((1534 - (rx + ry)) * (bx - by_)) (by omega) (by omega),
    i32_eq_self ((1534 - (rx + ry)) * (bx - by_) * (bx - by_)) (by omega) (by omega),
    i32_eq_self _ (by omega) (by omega : (1024 + (rx + ry)) * (rx - ry) * (rx - ry)
      + 2048 * (gx - gy) * (gx - gy) < 0x80000000),
    i32_eq_self _ (by omega) (by omega : (1024 + (rx + ry)) * (rx - ry) * (rx - ry)
      + 2048 * (gx - gy) * (gx - gy) + (1534 - (rx + ry)) * (bx - by_) * (bx - by_)
        < 0x80000000)]

/-- The function `distance` computes the weighted sum exactly. -/
theorem distance_eq (x y : Nat) :
    (distance x y : Int) = distance_formula (R x) (G x) (B x) (R y) (G y) (B y) := by
  have hrx := R_lt x
  have hry := R_lt y
  have hgx := G_lt x
  have hgy := G_lt y
  have hbx := B_lt x
  have hby := B_lt y
  obtain ⟨h1, h2, h3⟩ := distance_core (R x) (G x) (B x) (R y) (G y) (B y)
    (by omega) (by omega) (by omega) (by omega) (by omega) (by omega)
  unfold distance
  simp only []
  rw [u32_eq_self (R x + R y) (by omega),
    i32_eq_self ((R x : Nat) : Int) (by omega) (by omega),
    i32_eq_self ((R y : Nat) : Int) (by omega) (by omega),
    i32_eq_self ((G x : Nat) : Int) (by omega) (by omega),
    i32_eq_self ((G y : Nat) : Int) (by omega) (by omega),
    i32_eq_self ((B x : Nat) : Int) (by omega) (by omega),
    i32_eq_self ((B y : Nat) : Int) (by omega) (by omega),
    i32_eq_self (((R x + R y : Nat)) : Int) (by omega) (by omega),
    i32_eq_self ((R x : Int) - R y) (by omega) (by omega),
    i32_eq_self ((G x : Int) - G y) (by omega) (by omega),
    i32_eq_self ((B x : Int) - B y) (by omega) (by omega)]
  push_cast
  rw [h1]
  exact u32_of_i32_eq _ h2 (by omega)

/-- The distance reads its second argument only through the three channel
bytes. -/
theorem distance_congr_right (x y z : Nat) (hr : R y = R z) (hg : G y = G z)
    (hb : B y = B z) : distance x y = distance x z := by
  unfold distance; rw [hr, hg, hb]

/-- The distance reads its first argument only through the three channel
bytes. -/
theorem distance_congr_left (x y z : Nat) (hr : R x = R y) (hg : G x = G y)
    (hb : B x = B y) : distance x z = distance y z := by
  unfold distance; rw [hr, hg, hb]

/-! ## Ranges of the table entries and of the cube quantisation -/

theorem luminance_lt (c : Nat) : luminance c < 256 := by
  unfold luminance u8
  exact Nat.mod_lt _ (by norm_num)

theorem grey_table_length : ansi256_from_grey.length = 256 := by decide!

theorem grey_table_range : ∀ g ∈ ansi256_from_grey, 16 ≤ g ∧ g ≤ 255 := by decide!

theorem grey_entry_range (l : Nat) (hl : l < 256) :
    16 ≤ ansi256_from_grey.getD l 0 ∧ ansi256_from_grey.getD l 0 ≤ 255 := by
  have h : l < ansi256_from_grey.length := by rw [grey_table_length]; exact hl
  rw [List.getD_eq_getElem _ _ h]
  exact grey_table_range _ (List.getElem_mem h)

theorem grey_index_range (c : Nat) : 16 ≤ grey_index c ∧ grey_index c ≤ 255 :=
  grey_entry_range _ (luminance_lt c)

theorem spec_level_le (t : List Nat) (v : Nat) : spec_level t v ≤ t.length :=
  List.countP_le_length _

theorem cube_value_le (l : Nat) : cube_value l ≤ 255 := by
  unfold cube_value cube_values
  rcases Nat.lt_or_ge l 6 with h | h
  · interval_cases l <;> decide
  · rw [List.getD_eq_default _ _ (by simpa using h)]; omega

theorem cube_index_red_spec : ∀ v < 256, cube_index_red v
    = (16 + 36 * spec_level red_boundaries v) * 0x1000000
      + cube_value (spec_level red_boundaries v) * 0x10000 := by decide!

theorem cube_index_green_spec : ∀ v < 256, cube_index_green v
    = 6 * spec_level green_boundaries v * 0x1000000
      + cube_value (spec_level green_boundaries v) * 0x100 := by decide!

theorem cube_index_blue_spec : ∀ v < 256, cube_index_blue v
    = spec_level blue_boundaries v * 0x1000000
      + cube_value (spec_level blue_boundaries v) := by decide!

/-! ## The forward table, entry by entry -/

set_option maxRecDepth 100000 in
theorem cube_entries_aux : ∀ r < 6, ∀ g < 6, ∀ b < 6,
    rgb_from_ansi256 (16 + 36 * r + 6 * g + b)
      = packed (cube_value r) (cube_value g) (cube_value b) := by decide!

set_option maxRecDepth 100000 in
theorem ramp_entries_aux : ∀ k < 24,
    rgb_from_ansi256 (232 + k) = (8 + 10 * k) * 0x010101 := by decide!

set_option maxRecDepth 100000 in
theorem round_trip_aux : ∀ i < 256, 16 ≤ i → ansi256_from_rgb (rgb_from_ansi256 i) = i := by
  decide!

/-! ## The matcher -/

/-- Index of the cube candidate in the vocabulary of the specification. -/
theorem cube_eq (c : Nat) :
    cube c = (16 + 36 * spec_level red_boundaries (R c) + 6 * spec_level green_boundaries (G c)
        + spec_level blue_boundaries (B c)) * 0x1000000
      + packed (cube_value (spec_level red_boundaries (R c)))
          (cube_value (spec_level green_boundaries (G c)))
          (cube_value (spec_level blue_boundaries (B c))) := by
  have hr := spec_level_le red_boundaries (R c)
  have hg := spec_level_le green_boundaries (G c)
  have hb := spec_level_le blue_boundaries (B c)
  have vr := cube_value_le (spec_level red_boundaries (R c))
  have vg := cube_value_le (spec_level green_boundaries (G c))
  have vb := cube_value_le (spec_level blue_boundaries (B c))
  have lr : red_boundaries.length = 5 := rfl
  have lg : green_boundaries.length = 5 := rfl
  have lb : blue_boundaries.length = 5 := rfl
  unfold cube
  rw [cube_index_red_spec _ (R_lt c), cube_index_green_spec _ (G_lt c),
    cube_index_blue_spec _ (B_lt c)]
  unfold u32 packed
  omega

theorem cube_shift (c : Nat) :
    cube c >>> 24 = 16 + 36 * spec_level red_boundaries (R c)
      + 6 * spec_level green_boundaries (G c) + spec_level blue_boundaries (B c) := by
  have vr := cube_value_le (spec_level red_boundaries (R c))
  have vg := cube_value_le (spec_level green_boundaries (G c))
  have vb := cube_value_le (spec_level blue_boundaries (B c))
  rw [cube_eq, Nat.shiftRight_eq_div_pow]
  unfold packed
  omega

theorem cube_shift_range (c : Nat) : 16 ≤ cube c >>> 24 ∧ cube c >>> 24 ≤ 231 := by
  have hr := spec_level_le red_boundaries (R c)
  have hg := spec_level_le green_boundaries (G c)
  have hb := spec_level_le blue_boundaries (B c)
  have lr : red_boundaries.length = 5 := rfl
  have lg : green_boundaries.length = 5 := rfl
  have lb : blue_boundaries.length = 5 := rfl
  rw [cube_shift]
  omega

theorem cube_channels (c : Nat) :
    R (cube c) = cube_value (spec_level red_boundaries (R c))
    ∧ G (cube c) = cube_value (spec_level green_boundaries (G c))
    ∧ B (cube c) = cube_value (spec_level blue_boundaries (B c)) := by
  have vr := cube_value_le (spec_level red_boundaries (R c))
  have vg := cube_value_le (spec_level green_boundaries (G c))
  have vb := cube_value_le (spec_level blue_boundaries (B c))
  rw [R_eq, G_eq, B_eq, cube_eq]
  unfold packed
  omega

/-- The table colour of the cube candidate's index is the colour held in the
low 24 bits of `cube`. -/
theorem cube_colour (c : Nat) :
    rgb_from_ansi256 (cube c >>> 24)
      = packed (cube_value (spec_level red_boundaries (R c)))
          (cube_value (spec_level green_boundaries (G c)))
          (cube_value (spec_level blue_boundaries (B c))) := by
  have hr := spec_level_le red_boundaries (R c)
  have hg := spec_level_le green_boundaries (G c)
  have hb := spec_level_le blue_boundaries (B c)
  have lr : red_boundaries.length = 5 := rfl
  have lg : green_boundaries.length = 5 := rfl
  have lb : blue_boundaries.length = 5 := rfl
  rw [cube_shift]
  exact cube_entries_aux _ (by omega) _ (by omega) _ (by omega)

theorem distance_cube (c : Nat) :
    distance c (cube c)
      = distance c (packed (cube_value (spec_level red_boundaries (R c)))
          (cube_value (spec_level green_boundaries (G c)))
          (cube_value (spec_level blue_boundaries (B c)))) := by
  have vr := cube_value_le (spec_level red_boundaries (R c))
  have vg := cube_value_le (spec_level green_boundaries (G c))
  have vb := cube_value_le (spec_level blue_boundaries (B c))
  obtain ⟨h1, h2, h3⟩ := cube_channels c
  apply distance_congr_right
  · rw [h1, R_packed _ _ _ (by omega) (by omega) (by omega)]
  · rw [h2, G_packed _ _ _ (by omega) (by omega)]
  · rw [h3, B_packed _ _ _ (by omega)]

/-- The matcher without the final narrowing to `uint8_t`, which loses
nothing. -/
theorem ansi256_from_rgb_eq (c : Nat) :
    ansi256_from_rgb c
      = if distance c (cube c) < distance c (rgb_from_ansi256 (grey_index c))
        then cube c >>> 24 else grey_index c := by
  have hg := grey_index_range c
  have hc := cube_shift_range c
  show u8 (if distance c (cube c) < distance c (rgb_from_ansi256 (grey_index c))
        then cube c >>> 24 else grey_index c) = _
  apply u8_eq_self
  split <;> omega

/-- The matcher reads its argument only through the three channel bytes. -/
theorem ansi256_from_rgb_congr (x y : Nat) (hr : R x = R y) (hg : G x = G y)
    (hb : B x = B y) : ansi256_from_rgb x = ansi256_from_rgb y := by
  unfold ansi256_from_rgb luminance distance
  rw [hr, hg, hb]

theorem channels_mask (x : Nat) :
    R (x &&& 0x00ffffff) = R x ∧ G (x &&& 0x00ffffff) = G x ∧ B (x &&& 0x00ffffff) = B x := by
  have h : x &&& 0x00ffffff = x % 0x1000000 := Nat.and_pow_two_sub_one_eq_mod x 24
  rw [h, R_eq, G_eq, B_eq, R_eq, G_eq, B_eq]
  omega

/-! ## Distances between greys -/

/-- Between two pure greys the distance is 4606 times the squared difference
of the grey levels. -/
theorem distance_grey (l v : Nat) (hl : l < 256) (hv : v < 256) :
    (distance (l * 0x010101) (v * 0x010101) : Int) = 4606 * ((l : Int) - v) ^ 2 := by
  have el : l * 0x010101 = packed l l l := by unfold packed; omega
  have ev : v * 0x010101 = packed v v v := by unfold packed; omega
  rw [distance_eq, el, ev, R_packed _ _ _ hl hl hl, G_packed _ _ _ hl hl, B_packed _ _ _ hl,
    R_packed _ _ _ hv hv hv, G_packed _ _ _ hv hv, B_packed _ _ _ hv]
  unfold distance_formula
  ring

/-! ## The grey table against the grey levels of the palette -/

theorem colours_length : colours.length = 256 := by decide!

/-- A property checked along the table holds of every entry looked up. -/
theorem colours_forall (p : Nat → Nat → Prop) (h : ∀ x ∈ colours.enum, p x.1 x.2)
    (i : Nat) (hi : i < 256) : p i (rgb_from_ansi256 i) := by
  have hl : i < colours.length := by rw [colours_length]; exact hi
  have hp := (List.forall_mem_enum.mp h) i hl
  unfold rgb_from_ansi256
  rw [u8_eq_self i hi, List.getD_eq_getElem _ _ hl]
  exact hp

/-- Outside the system colours the entries whose three channel bytes agree
are those of the cube diagonal and of the ramp. -/
theorem grey_index_iff_aux : ∀ x ∈ colours.enum,
    16 ≤ x.1 → (is_grey_index x.1 ↔ (R x.2 = G x.2 ∧ G x.2 = B x.2)) := by
  decide!

/-- Every pure-grey index outside the system colours has the colour
`v * 0x010101` with `v` one of the thirty grey levels. -/
theorem grey_index_colour : ∀ j < 256, is_grey_index j →
    grey_level j ∈ grey_levels ∧ rgb_from_ansi256 j = grey_level j * 0x010101 := by
  decide!

set_option maxRecDepth 100000 in
/-- Every entry of the grey table is a pure-grey index whose level is at
least as near to the luminance as each of the thirty grey levels. -/
theorem grey_table_nearest_aux : ∀ l < 256,
    is_grey_index (ansi256_from_grey.getD l 0)
      ∧ ∀ v ∈ grey_levels,
        (l - grey_level (ansi256_from_grey.getD l 0))
            + (grey_level (ansi256_from_grey.getD l 0) - l)
          ≤ (l - v) + (v - l) := by
  decide!

/-- Nearer grey levels give smaller distances. -/
theorem distance_grey_le (l a b : Nat) (hl : l < 256) (ha : a < 256) (hb : b < 256)
    (h : (l - a) + (a - l) ≤ (l - b) + (b - l)) :
    distance (l * 0x010101) (a * 0x010101) ≤ distance (l * 0x010101) (b * 0x010101) := by
  have key : |(l : Int) - a| ≤ |(l : Int) - b| := by
    rw [abs_le]
    rcases abs_cases ((l : Int) - b) with ⟨h1, h2⟩ | ⟨h1, h2⟩ <;> constructor <;> omega
  have hsq : ((l : Int) - a) ^ 2 ≤ ((l : Int) - b) ^ 2 := sq_le_sq.mpr key
  have : (distance (l * 0x010101) (a * 0x010101) : Int)
      ≤ (distance (l * 0x010101) (b * 0x010101) : Int) := by
    rw [distance_grey l a hl ha, distance_grey l b hl hb]
    omega
  exact_mod_cast this

/-! ## Properties of the forward table -/

/-- C8: the documented forward-table examples hold: index 16 is `0x000000`,
index 67 is `0x5f87af`, index 231 is `0xffffff` and index 255 is `0xeeeeee`. -/
theorem forward_table_examples :
    rgb_from_ansi256 16 = 0x000000 ∧ rgb_from_ansi256 67 = 0x5f87af
      ∧ rgb_from_ansi256 231 = 0xffffff ∧ rgb_from_ansi256 255 = 0xeeeeee := by
  decide!

/-- C4: colour-cube entries of the forward table. For levels `r`, `g`, `b` in
`0..5` the entry at index `16 + 36*r + 6*g + b` is the packed `0xRRGGBB` value
whose red, green and blue bytes are the component values of those levels in
`[0, 95, 135, 175, 215, 255]`. -/
theorem cube_entries (r g b : Nat) (hr : r < 6) (hg : g < 6) (hb : b < 6) :
    rgb_from_ansi256 (16 + 36 * r + 6 * g + b)
        = cube_value r * 0x10000 + cube_value g * 0x100 + cube_value b
      ∧ R (rgb_from_ansi256 (16 + 36 * r + 6 * g + b)) = cube_value r
      ∧ G (rgb_from_ansi256 (16 + 36 * r + 6 * g + b)) = cube_value g
      ∧ B (rgb_from_ansi256 (16 + 36 * r + 6 * g + b)) = cube_value b
      ∧ cube_values = [0, 95, 135, 175, 215, 255] := by
  have vr := cube_value_le r
  have vg := cube_value_le g
  have vb := cube_value_le b
  rw [cube_entries_aux r hr g hg b hb]
  exact ⟨rfl, R_packed _ _ _ (by omega) (by omega) (by omega),
    G_packed _ _ _ (by omega) (by omega), B_packed _ _ _ (by omega), rfl⟩

/-- Witness of `cube_entries` at levels 1, 2, 3, the index 67. -/
theorem cube_entries_witness :
    rgb_from_ansi256 (16 + 36 * 1 + 6 * 2 + 3)
        = cube_value 1 * 0x10000 + cube_value 2 * 0x100 + cube_value 3
      ∧ R (rgb_from_ansi256 (16 + 36 * 1 + 6 * 2 + 3)) = cube_value 1
      ∧ G (rgb_from_ansi256 (16 + 36 * 1 + 6 * 2 + 3)) = cube_value 2
      ∧ B (rgb_from_ansi256 (16 + 36 * 1 + 6 * 2 + 3)) = cube_value 3
      ∧ cube_values = [0, 95, 135, 175, 215, 255] :=
  cube_entries 1 2 3 (by decide) (by decide) (by decide)

/-- C5: greyscale-ramp entries of the forward table. For every index `i` with
`232 ≤ i ≤ 255` the entry has all three channel bytes equal to
`8 + 10*(i - 232)`, that is, it equals `(8 + 10*(i - 232)) * 0x010101`. -/
theorem ramp_entries (i : Nat) (h232 : 232 ≤ i) (h255 : i ≤ 255) :
    rgb_from_ansi256 i = (8 + 10 * (i - 232)) * 0x010101
      ∧ R (rgb_from_ansi256 i) = 8 + 10 * (i - 232)
      ∧ G (rgb_from_ansi256 i) = 8 + 10 * (i - 232)
      ∧ B (rgb_from_ansi256 i) = 8 + 10 * (i - 232) := by
  have h := ramp_entries_aux (i - 232) (by omega)
  rw [show 232 + (i - 232) = i by omega] at h
  have e : (8 + 10 * (i - 232)) * 0x010101
      = packed (8 + 10 * (i - 232)) (8 + 10 * (i - 232)) (8 + 10 * (i - 232)) := by
    unfold packed; omega
  rw [h]
  refine ⟨rfl, ?_, ?_, ?_⟩
  · rw [e]; exact R_packed _ _ _ (by omega) (by omega) (by omega)
  · rw [e]; exact G_packed _ _ _ (by omega) (by omega)
  · rw [e]; exact B_packed _ _ _ (by omega)

/-- Witness of `ramp_entries` at the last index, 255. -/
theorem ramp_entries_witness :
    rgb_from_ansi256 255 = (8 + 10 * (255 - 232)) * 0x010101
      ∧ R (rgb_from_ansi256 255) = 8 + 10 * (255 - 232)
      ∧ G (rgb_from_ansi256 255) = 8 + 10 * (255 - 232)
      ∧ B (rgb_from_ansi256 255) = 8 + 10 * (255 - 232) :=
  ramp_entries 255 (by decide) (by decide)

/-! ## Properties of the matcher -/

/-- C7: the documented nearest-match examples hold: `0x000000`, `0x010101`
and `0x000102` map to 16, `0x5f87af` maps to 67 and `0xffffff` maps to 231. -/
theorem nearest_match_examples :
    ansi256_from_rgb 0x000000 = 16 ∧ ansi256_from_rgb 0x010101 = 16
      ∧ ansi256_from_rgb 0x000102 = 16 ∧ ansi256_from_rgb 0x5f87af = 67
      ∧ ansi256_from_rgb 0xffffff = 231 := by
  decide!

/-- C1: round trip. For every palette index `i` with `16 ≤ i ≤ 255`, that is
every cube and every greyscale-ramp index, approximating the table colour of
`i` gives `i` back. -/
theorem round_trip (i : Nat) (h16 : 16 ≤ i) (h255 : i ≤ 255) :
    ansi256_from_rgb (rgb_from_ansi256 i) = i :=
  round_trip_aux i (by omega) h16

/-- Witness of `round_trip` at index 59, a grey of the cube diagonal. -/
theorem round_trip_witness : ansi256_from_rgb (rgb_from_ansi256 59) = 59 :=
  round_trip 59 (by decide) (by decide)

/-- C2: for every 32-bit input the returned index lies in `16..255`, so none
of the 16 system-colour indices is ever returned; every entry of the grey
table is at least 16 and every cube index lies in `16..231`. -/
theorem result_range (rgb : Nat) (_h32 : rgb < 2 ^ 32) :
    (16 ≤ ansi256_from_rgb rgb ∧ ansi256_from_rgb rgb ≤ 255)
      ∧ (∀ g ∈ ansi256_from_grey, 16 ≤ g)
      ∧ (16 ≤ cube rgb >>> 24 ∧ cube rgb >>> 24 ≤ 231) := by
  have hg := grey_index_range rgb
  have hc := cube_shift_range rgb
  refine ⟨?_, fun g hgm => (grey_table_range g hgm).1, hc⟩
  rw [ansi256_from_rgb_eq]
  split <;> omega

/-- Witness of `result_range` at pure blue with the top byte set. -/
theorem result_range_witness :
    (16 ≤ ansi256_from_rgb 0xff0000ff ∧ ansi256_from_rgb 0xff0000ff ≤ 255)
      ∧ (∀ g ∈ ansi256_from_grey, 16 ≤ g)
      ∧ (16 ≤ cube 0xff0000ff >>> 24 ∧ cube 0xff0000ff >>> 24 ≤ 231) :=
  result_range 0xff0000ff (by decide)

/-- C3: the matcher equals the specified algorithm for every input: grey
candidate from the grey table at the luminance, cube candidate
`16 + 36*lr + 6*lg + lb` from the quantised levels with the cube colour of
those levels, the cube candidate returned when its distance is strictly
smaller and the grey candidate otherwise; in particular on equal distances the
grey index is returned. -/
theorem matches_spec_algorithm (c : Nat) (_h32 : c < 2 ^ 32) :
    ansi256_from_rgb c = spec_approximate c
      ∧ (distance c (packed (cube_value (spec_level red_boundaries (R c)))
            (cube_value (spec_level green_boundaries (G c)))
            (cube_value (spec_level blue_boundaries (B c))))
          = distance c (rgb_from_ansi256 (ansi256_from_grey.getD (luminance c) 0))
        → ansi256_from_rgb c = ansi256_from_grey.getD (luminance c) 0) := by
  have e : ansi256_from_rgb c = spec_approximate c := by
    rw [ansi256_from_rgb_eq, distance_cube, cube_shift]
    rfl
  refine ⟨e, fun htie => ?_⟩
  rw [e]
  unfold spec_approximate
  simp only []
  rw [htie, if_neg (Nat.lt_irrefl _)]

/-- Witness of `matches_spec_algorithm` at black, where both candidates are at
distance zero. -/
theorem matches_spec_algorithm_witness :
    ansi256_from_rgb 0 = spec_approximate 0
      ∧ (distance 0 (packed (cube_value (spec_level red_boundaries (R 0)))
            (cube_value (spec_level green_boundaries (G 0)))
            (cube_value (spec_level blue_boundaries (B 0))))
          = distance 0 (rgb_from_ansi256 (ansi256_from_grey.getD (luminance 0) 0))
        → ansi256_from_rgb 0 = ansi256_from_grey.getD (luminance 0) 0) :=
  matches_spec_algorithm 0 (by decide)

/-- C6: the most significant eight bits of the argument are ignored: for
every 32-bit `x`, the matcher gives the same index on `x` and on
`x & 0x00ffffff`. -/
theorem high_byte_ignored (x : Nat) (_h32 : x < 2 ^ 32) :
    ansi256_from_rgb x = ansi256_from_rgb (x &&& 0x00ffffff) := by
  obtain ⟨hr, hg, hb⟩ := channels_mask x
  exact ansi256_from_rgb_congr _ _ hr.symm hg.symm hb.symm

/-- Witness of `high_byte_ignored` at `0xff5f87af`. -/
theorem high_byte_ignored_witness :
    ansi256_from_rgb 0xff5f87af = ansi256_from_rgb (0xff5f87af &&& 0x00ffffff) :=
  high_byte_ignored 0xff5f87af (by decide)

/-- C9, counterexample: the returned index is not always a nearest palette
entry. For the colour `0x00000d` the matcher returns 16 (black), at distance
259246, while index 232 (`0x080808`) is at distance 235270. -/
theorem best_match_counterexample :
    0x00000d < 0x1000000 ∧ ansi256_from_rgb 0x00000d = 16
      ∧ distance 0x00000d (rgb_from_ansi256 (ansi256_from_rgb 0x00000d)) = 259246
      ∧ (16 ≤ 232 ∧ 232 ≤ 255) ∧ distance 0x00000d (rgb_from_ansi256 232) = 235270
      ∧ ¬ (distance 0x00000d (rgb_from_ansi256 (ansi256_from_rgb 0x00000d))
            ≤ distance 0x00000d (rgb_from_ansi256 232)) := by
  decide!

/-- C9, amended: for every 24-bit colour `c` the returned index `k` is the
nearer of the two candidates the matcher compares, the grey-table entry at the
luminance of `c` and the cube index `16 + 36*lr + 6*lg + lb` of the quantised
levels: `k` is one of the two and its colour is at least as near to `c` as the
colour of either. -/
theorem nearer_of_two_candidates (c : Nat) (_h24 : c < 2 ^ 24) :
    (ansi256_from_rgb c = ansi256_from_grey.getD (luminance c) 0
        ∨ ansi256_from_rgb c = 16 + 36 * spec_level red_boundaries (R c)
            + 6 * spec_level green_boundaries (G c) + spec_level blue_boundaries (B c))
      ∧ ∀ j, (j = ansi256_from_grey.getD (luminance c) 0
            ∨ j = 16 + 36 * spec_level red_boundaries (R c)
              + 6 * spec_level green_boundaries (G c) + spec_level blue_boundaries (B c)) →
          distance c (rgb_from_ansi256 (ansi256_from_rgb c))
            ≤ distance c (rgb_from_ansi256 j) := by
  have hcol : distance c (rgb_from_ansi256 (cube c >>> 24)) = distance c (cube c) := by
    rw [cube_colour, distance_cube]
  have hk := ansi256_from_rgb_eq c
  rw [← cube_shift c]
  show (ansi256_from_rgb c = grey_index c ∨ ansi256_from_rgb c = cube c >>> 24)
      ∧ ∀ j, (j = grey_index c ∨ j = cube c >>> 24) →
          distance c (rgb_from_ansi256 (ansi256_from_rgb c))
            ≤ distance c (rgb_from_ansi256 j)
  by_cases hlt : distance c (cube c) < distance c (rgb_from_ansi256 (grey_index c))
  · rw [if_pos hlt] at hk
    refine ⟨Or.inr hk, ?_⟩
    rintro j (rfl | rfl)
    · rw [hk, hcol]; exact Nat.le_of_lt hlt
    · rw [hk]
  · rw [if_neg hlt] at hk
    refine ⟨Or.inl hk, ?_⟩
    rintro j (rfl | rfl)
    · rw [hk]
    · rw [hk, hcol]; exact Nat.le_of_not_lt hlt

/-- Witness of `nearer_of_two_candidates` at `0x00000d`. -/
theorem nearer_of_two_candidates_witness :
    (ansi256_from_rgb 0x00000d = ansi256_from_grey.getD (luminance 0x00000d) 0
        ∨ ansi256_from_rgb 0x00000d = 16 + 36 * spec_level red_boundaries (R 0x00000d)
            + 6 * spec_level green_boundaries (G 0x00000d)
            + spec_level blue_boundaries (B 0x00000d))
      ∧ ∀ j, (j = ansi256_from_grey.getD (luminance 0x00000d) 0
            ∨ j = 16 + 36 * spec_level red_boundaries (R 0x00000d)
              + 6 * spec_level green_boundaries (G 0x00000d)
              + spec_level blue_boundaries (B 0x00000d)) →
          distance 0x00000d (rgb_from_ansi256 (ansi256_from_rgb 0x00000d))
            ≤ distance 0x00000d (rgb_from_ansi256 j) :=
  nearer_of_two_candidates 0x00000d (by decide)

/-- C10: grey-table consistency over the indices the matcher may return. For
every luminance byte `l` the entry `g` of the grey table is a pure-grey
palette index in `16..255`, on the cube diagonal (16, 59, 102, 145, 188, 231)
or on the ramp (`232..255`), and the colour of `g` is at least as near to the
grey `(l, l, l)` as the colour of every pure-grey index `j` in `16..255`; in
`16..255` those indices are exactly the ones whose colour has three equal
channel bytes. -/
theorem grey_table_consistency (l : Nat) (hl : l ≤ 255) :
    (16 ≤ ansi256_from_grey.getD l 0 ∧ ansi256_from_grey.getD l 0 ≤ 255)
      ∧ is_grey_index (ansi256_from_grey.getD l 0)
      ∧ (∀ j, 16 ≤ j → j ≤ 255 → is_grey_index j →
          distance (packed l l l) (rgb_from_ansi256 (ansi256_from_grey.getD l 0))
            ≤ distance (packed l l l) (rgb_from_ansi256 j))
      ∧ (∀ j, 16 ≤ j → j ≤ 255 →
          (is_grey_index j ↔ (R (rgb_from_ansi256 j) = G (rgb_from_ansi256 j)
            ∧ G (rgb_from_ansi256 j) = B (rgb_from_ansi256 j)))) := by
  have hr := grey_entry_range l (by omega)
  obtain ⟨hg, hnear⟩ := grey_table_nearest_aux l (by omega)
  obtain ⟨_, hgc⟩ := grey_index_colour _ (by omega) hg
  refine ⟨hr, hg, ?_, ?_⟩
  · intro j _ hj255 hj
    obtain ⟨hjm, hjc⟩ := grey_index_colour j (by omega) hj
    have el : packed l l l = l * 0x010101 := by unfold packed; omega
    rw [el, hgc, hjc]
    exact distance_grey_le l _ _ (by omega) (R_lt _) (R_lt _) (hnear _ hjm)
  · intro j hj16 hj255
    exact colours_forall
      (fun i x => 16 ≤ i → (is_grey_index i ↔ (R x = G x ∧ G x = B x)))
      grey_index_iff_aux j (by omega) hj16

/-- Witness of `grey_table_consistency` at luminance 95, whose entry is the
cube-diagonal index 59. -/
theorem grey_table_consistency_witness :
    (16 ≤ ansi256_from_grey.getD 95 0 ∧ ansi256_from_grey.getD 95 0 ≤ 255)
      ∧ is_grey_index (ansi256_from_grey.getD 95 0)
      ∧ (∀ j, 16 ≤ j → j ≤ 255 → is_grey_index j →
          distance (packed 95 95 95) (rgb_from_ansi256 (ansi256_from_grey.getD 95 0))
            ≤ distance (packed 95 95 95) (rgb_from_ansi256 j))
      ∧ (∀ j, 16 ≤ j → j ≤ 255 →
          (is_grey_index j ↔ (R (rgb_from_ansi256 j) = G (rgb_from_ansi256 j)
            ∧ G (rgb_from_ansi256 j) = B (rgb_from_ansi256 j)))) :=
  grey_table_consistency 95 (by decide)

/-! ## Luminance and distance, exactly -/

/-- The luminance sum with the rounding half added stays below `2 ^ 32`, and
the shifted value fits a byte. -/
theorem luminance_eq (c : Nat) :
    3567664 * R c + 11998547 * G c + 1211005 * B c + 0x800000 < 0x100000000
      ∧ luminance c
        = (3567664 * R c + 11998547 * G c + 1211005 * B c + 0x800000) / 0x1000000
      ∧ (3567664 * R c + 11998547 * G c + 1211005 * B c + 0x800000) / 0x1000000 ≤ 255 := by
  have hr := R_lt c
  have hg := G_lt c
  have hb := B_lt c
  refine ⟨by omega, ?_, by omega⟩
  have e : (1 : Nat) <<< 23 = 0x800000 := by decide
  unfold luminance
  simp only []
  rw [e, Nat.shiftRight_eq_div_pow, u32_eq_self (3567664 * R c) (by omega),
    u32_eq_self (11998547 * G c) (by omega), u32_eq_self (1211005 * B c) (by omega),
    u32_eq_self 0x800000 (by omega), u32_eq_self (3567664 * R c + 11998547 * G c) (by omega),
    u32_eq_self (3567664 * R c + 11998547 * G c + 1211005 * B c) (by omega),
    u32_eq_self (3567664 * R c + 11998547 * G c + 1211005 * B c + 0x800000) (by omega)]
  have p : (2 : Nat) ^ 24 = 0x1000000 := by norm_num
  rw [p]
  exact u8_eq_self _ (by omega)

/-- The luminance of a pure grey is its level. -/
theorem luminance_grey (v : Nat) (hv : v < 256) : luminance (packed v v v) = v := by
  rw [(luminance_eq _).2.1, R_packed _ _ _ hv hv hv, G_packed _ _ _ hv hv, B_packed _ _ _ hv]
  omega

/-- The three weights of the distance are strictly positive. -/
theorem weights_pos (x y : Nat) :
    (0 : Int) < 1024 + ((R x : Int) + R y) ∧ (0 : Int) < 1534 - ((R x : Int) + R y) := by
  have hrx := R_lt x
  have hry := R_lt y
  constructor <;> omega

/-- The distance is zero exactly when the three channel bytes agree. -/
theorem distance_eq_zero_iff (x y : Nat) :
    distance x y = 0 ↔ (R x = R y ∧ G x = G y ∧ B x = B y) := by
  obtain ⟨w1, w2⟩ := weights_pos x y
  have hd := distance_eq x y
  unfold distance_formula at hd
  constructor
  · intro h0
    rw [h0] at hd
    have s1 : 0 ≤ ((R x : Int) - R y) ^ 2 := sq_nonneg _
    have s2 : 0 ≤ ((G x : Int) - G y) ^ 2 := sq_nonneg _
    have s3 : 0 ≤ ((B x : Int) - B y) ^ 2 := sq_nonneg _
    have t1 : 0 ≤ (1024 + ((R x : Int) + R y)) * ((R x : Int) - R y) ^ 2 :=
      mul_nonneg (le_of_lt w1) s1
    have t3 : 0 ≤ (1534 - ((R x : Int) + R y)) * ((B x : Int) - B y) ^ 2 :=
      mul_nonneg (le_of_lt w2) s3
    have z1 : (1024 + ((R x : Int) + R y)) * ((R x : Int) - R y) ^ 2 = 0 := by
      push_cast at hd; omega
    have z2 : ((G x : Int) - G y) ^ 2 = 0 := by push_cast at hd; omega
    have z3 : (1534 - ((R x : Int) + R y)) * ((B x : Int) - B y) ^ 2 = 0 := by
      push_cast at hd; omega
    have r0 : ((R x : Int) - R y) ^ 2 = 0 := by
      rcases mul_eq_zero.mp z1 with h | h
      · omega
      · exact h
    have b0 : ((B x : Int) - B y) ^ 2 = 0 := by
      rcases mul_eq_zero.mp z3 with h | h
      · omega
      · exact h
    have r1 := pow_eq_zero_iff (two_ne_zero) |>.mp r0
    have g1 := pow_eq_zero_iff (two_ne_zero) |>.mp z2
    have b1 := pow_eq_zero_iff (two_ne_zero) |>.mp b0
    refine ⟨by omega, by omega, by omega⟩
  · rintro ⟨hr, hg, hb⟩
    rw [hr, hg, hb] at hd
    have : (distance x y : Int) = 0 := by rw [hd]; ring
    exact_mod_cast this

/-- Two values agree on the low 24 bits exactly when their channel bytes
agree. -/
theorem low24_eq_iff (x y : Nat) :
    x &&& 0xffffff = y &&& 0xffffff ↔ (R x = R y ∧ G x = G y ∧ B x = B y) := by
  have hx : x &&& 0xffffff = x % 0x1000000 := Nat.and_pow_two_sub_one_eq_mod x 24
  have hy : y &&& 0xffffff = y % 0x1000000 := Nat.and_pow_two_sub_one_eq_mod y 24
  rw [hx, hy, R_eq, G_eq, B_eq, R_eq, G_eq, B_eq]
  omega

/-! ## Pure greys against the whole palette -/

/-- The colour of the grey-table entry at `l` is at least as near to the grey
`(l, l, l)` as the colour of every pure-grey index of the cube diagonal and of
the ramp. -/
theorem grey_table_nearest (l j : Nat) (hl : l < 256) (hj : j < 256) (hg : is_grey_index j) :
    distance (packed l l l) (rgb_from_ansi256 (ansi256_from_grey.getD l 0))
      ≤ distance (packed l l l) (rgb_from_ansi256 j) := by
  have hr := grey_entry_range l hl
  obtain ⟨hgl, hnear⟩ := grey_table_nearest_aux l hl
  obtain ⟨_, hgc⟩ := grey_index_colour _ (by omega) hgl
  obtain ⟨hjm, hjc⟩ := grey_index_colour j hj hg
  have el : packed l l l = l * 0x010101 := by unfold packed; omega
  rw [el, hgc, hjc]
  exact distance_grey_le l _ _ hl (R_lt _) (R_lt _) (hnear _ hjm)

/-- Among the system colours the pure greys are the indices 0, 7, 8 and 15. -/
theorem system_grey_iff_aux : ∀ x ∈ colours.enum,
    x.1 < 16 → (is_pure_grey x.2 ↔ x.1 ∈ [0, 7, 8, 15]) := by
  decide!

/-- The four pure greys among the system colours, and the two of them that
repeat a cube colour. -/
theorem system_greys :
    rgb_from_ansi256 0 = 0x000000 ∧ rgb_from_ansi256 7 = 0xe5e5e5
      ∧ rgb_from_ansi256 8 = 0x7f7f7f ∧ rgb_from_ansi256 15 = 0xffffff
      ∧ rgb_from_ansi256 0 = rgb_from_ansi256 16
      ∧ rgb_from_ansi256 15 = rgb_from_ansi256 231 := by
  decide!

/-- Every luminance byte has one of the thirty grey levels within 8. -/
theorem grey_level_within : ∀ v < 256, ∃ g ∈ grey_levels, (v - g) + (g - v) ≤ 8 := by
  decide!

/-- Two different cube levels have component values at least 40 apart. -/
theorem cube_value_gap : ∀ p < 6, ∀ q < 6, p ≠ q →
    40 ≤ (cube_value p - cube_value q) + (cube_value q - cube_value p) := by
  decide!

/-- The grey candidate of a pure grey is at distance at most `4606 * 8 ^ 2`. -/
theorem grey_candidate_near (v : Nat) (hv : v < 256) :
    distance (packed v v v) (rgb_from_ansi256 (ansi256_from_grey.getD v 0)) ≤ 294784 := by
  have hr := grey_entry_range v hv
  obtain ⟨hgl, hnear⟩ := grey_table_nearest_aux v hv
  obtain ⟨_, hgc⟩ := grey_index_colour _ (by omega) hgl
  obtain ⟨g, hgm, hg8⟩ := grey_level_within v hv
  have h8 := hnear g hgm
  have hlev : grey_level (ansi256_from_grey.getD v 0) < 256 := R_lt _
  have el : packed v v v = v * 0x010101 := by unfold packed; omega
  have hd := distance_grey v (grey_level (ansi256_from_grey.getD v 0)) hv hlev
  rw [el, hgc]
  have b1 : ((v : Int) - grey_level (ansi256_from_grey.getD v 0)) ≤ 8 := by omega
  have b2 : -8 ≤ ((v : Int) - grey_level (ansi256_from_grey.getD v 0)) := by omega
  have sq : ((v : Int) - grey_level (ansi256_from_grey.getD v 0)) ^ 2 ≤ 8 ^ 2 :=
    sq_le_sq' (by omega) b1
  have : (distance (v * 0x010101) (grey_level (ansi256_from_grey.getD v 0) * 0x010101) : Int)
      ≤ 294784 := by rw [hd]; omega
  exact_mod_cast this

/-- A colour with two channel bytes at least 40 apart is at distance at least
`1024 * 20 ^ 2` from every pure grey. -/
theorem distance_far (v y : Nat) (hv : v < 256)
    (h : 20 ≤ (v - R y) + (R y - v) ∨ 20 ≤ (v - G y) + (G y - v)
      ∨ 20 ≤ (v - B y) + (B y - v)) :
    409600 ≤ distance (packed v v v) y := by
  have hd := distance_eq (packed v v v) y
  rw [R_packed _ _ _ hv hv hv, G_packed _ _ _ hv hv, B_packed _ _ _ hv] at hd
  unfold distance_formula at hd
  have hry := R_lt y
  have s1 : 0 ≤ ((v : Int) - R y) ^ 2 := sq_nonneg _
  have s2 : 0 ≤ ((v : Int) - G y) ^ 2 := sq_nonneg _
  have s3 : 0 ≤ ((v : Int) - B y) ^ 2 := sq_nonneg _
  have t1 : 1024 * ((v : Int) - R y) ^ 2 ≤ (1024 + ((v : Int) + R y)) * ((v : Int) - R y) ^ 2 :=
    mul_le_mul_of_nonneg_right (by omega) s1
  have t3 : 1024 * ((v : Int) - B y) ^ 2 ≤ (1534 - ((v : Int) + R y)) * ((v : Int) - B y) ^ 2 :=
    mul_le_mul_of_nonneg_right (by omega) s3
  have far : ∀ a b : Nat, 20 ≤ (a - b) + (b - a) → (400 : Int) ≤ ((a : Int) - b) ^ 2 := by
    intro a b hab
    rcases Nat.le_total a b with hle | hle
    · have h20 : (20 : Int) ≤ (b : Int) - a := by omega
      have e : ((a : Int) - b) ^ 2 = ((b : Int) - a) ^ 2 := by ring
      rw [e]
      exact pow_le_pow_left₀ (by norm_num) h20 2
    · have h20 : (20 : Int) ≤ (a : Int) - b := by omega
      exact pow_le_pow_left₀ (by norm_num) h20 2
  have : (409600 : Int) ≤ distance (packed v v v) y := by
    rw [hd]
    rcases h with h | h | h
    · have := far _ _ h; omega
    · have := far _ _ h; omega
    · have := far _ _ h; omega
  exact_mod_cast this

/-- The returned index is at least as near as the grey candidate. -/
theorem result_le_grey (c : Nat) :
    distance c (rgb_from_ansi256 (ansi256_from_rgb c))
      ≤ distance c (rgb_from_ansi256 (grey_index c)) := by
  have hcol : distance c (rgb_from_ansi256 (cube c >>> 24)) = distance c (cube c) := by
    rw [cube_colour, distance_cube]
  rw [ansi256_from_rgb_eq]
  split
  · rename_i hlt
    rw [hcol]; exact Nat.le_of_lt hlt
  · exact Nat.le_refl _

/-- Every cube index splits into its three levels. -/
theorem cube_index_decompose (j : Nat) (h16 : 16 ≤ j) (h231 : j ≤ 231) :
    ∃ a b c, a < 6 ∧ b < 6 ∧ c < 6 ∧ j = 16 + 36 * a + 6 * b + c := by
  refine ⟨(j - 16) / 36, (j - 16) % 36 / 6, (j - 16) % 36 % 6, ?_, ?_, ?_, ?_⟩
  · omega
  · omega
  · omega
  · omega

/-- Of two values at least 40 apart one is at least 20 away from any third. -/
theorem far_of_gap (v p q : Nat) (h : 40 ≤ (p - q) + (q - p)) :
    20 ≤ (v - p) + (p - v) ∨ 20 ≤ (v - q) + (q - v) := by
  omega

/-- A cube colour off the grey diagonal is at distance at least `1024 * 20 ^ 2`
from every pure grey. -/
theorem cube_off_diagonal_far (v a b c : Nat) (hv : v < 256) (ha : a < 6) (hb : b < 6)
    (hc : c < 6) (hne : ¬ (a = b ∧ b = c)) :
    409600 ≤ distance (packed v v v) (rgb_from_ansi256 (16 + 36 * a + 6 * b + c)) := by
  have va : cube_value a < 256 := Nat.lt_succ_of_le (cube_value_le a)
  have vb : cube_value b < 256 := Nat.lt_succ_of_le (cube_value_le b)
  have vc : cube_value c < 256 := Nat.lt_succ_of_le (cube_value_le c)
  apply distance_far v _ hv
  rw [cube_entries_aux a ha b hb c hc, R_packed _ _ _ va vb vc, G_packed _ _ _ vb vc,
    B_packed _ _ _ vc]
  by_cases hab : a = b
  · have hbc : b ≠ c := fun e => hne ⟨hab, e⟩
    exact Or.inr (far_of_gap v _ _ (cube_value_gap _ hb _ hc hbc))
  · rcases far_of_gap v _ _ (cube_value_gap _ ha _ hb hab) with h | h
    · exact Or.inl h
    · exact Or.inr (Or.inl h)

/-- A pure grey input gets an index at least as near as every index of the
cube and of the ramp. -/
theorem pure_grey_nearest_aux (v j : Nat) (hv : v < 256) (h16 : 16 ≤ j) (h255 : j ≤ 255) :
    distance (packed v v v) (rgb_from_ansi256 (ansi256_from_rgb (packed v v v)))
      ≤ distance (packed v v v) (rgb_from_ansi256 j) := by
  have hres := result_le_grey (packed v v v)
  have hgi : grey_index (packed v v v) = ansi256_from_grey.getD v 0 := by
    unfold grey_index; rw [luminance_grey v hv]
  rw [hgi] at hres
  by_cases hg : is_grey_index j
  · exact Nat.le_trans hres (grey_table_nearest v j hv (Nat.lt_succ_of_le h255) hg)
  · have hj : j ≤ 231 := by
      by_contra hcon
      exact hg (Or.inr ⟨by omega, h255⟩)
    obtain ⟨a, b, c, ha, hb, hc, rfl⟩ := cube_index_decompose j h16 hj
    have hne : ¬ (a = b ∧ b = c) := by
      rintro ⟨rfl, rfl⟩
      apply hg
      left
      interval_cases a <;> decide
    exact Nat.le_trans hres (Nat.le_trans (grey_candidate_near v hv)
      (Nat.le_trans (by decide) (cube_off_diagonal_far v a b c hv ha hb hc hne)))

/-! ## Cube quantisation, channel by channel -/

/-- Each channel function returns the `IDX` value of the level counted from
the boundaries, for every byte. -/
theorem cube_index_levels_aux : ∀ v < 256,
    cube_index_red v
        = IDX_red (spec_level red_boundaries v) (cube_value (spec_level red_boundaries v))
      ∧ cube_index_green v
        = IDX_green (spec_level green_boundaries v) (cube_value (spec_level green_boundaries v))
      ∧ cube_index_blue v
        = IDX_blue (spec_level blue_boundaries v) (cube_value (spec_level blue_boundaries v)) := by
  decide!

/-- The level and the component value can be read back from the returned
word, for every byte. -/
theorem cube_index_fields_aux : ∀ v < 256,
    (cube_index_red v >>> 24 = 16 + 36 * spec_level red_boundaries v
        ∧ cube_index_red v &&& 0xffffff = cube_value (spec_level red_boundaries v) * 0x10000)
      ∧ (cube_index_green v >>> 24 = 6 * spec_level green_boundaries v
        ∧ cube_index_green v &&& 0xffffff = cube_value (spec_level green_boundaries v) * 0x100)
      ∧ (cube_index_blue v >>> 24 = spec_level blue_boundaries v
        ∧ cube_index_blue v &&& 0xffffff = cube_value (spec_level blue_boundaries v)) := by
  decide!

/-- On a boundary the level is one more than just below it. -/
theorem boundary_levels :
    (∀ b ∈ red_boundaries,
        spec_level red_boundaries b = spec_level red_boundaries (b - 1) + 1)
      ∧ (∀ b ∈ green_boundaries,
        spec_level green_boundaries b = spec_level green_boundaries (b - 1) + 1)
      ∧ (∀ b ∈ blue_boundaries,
        spec_level blue_boundaries b = spec_level blue_boundaries (b - 1) + 1) := by
  decide!

/-- The plain sum of the three channel words is the cube index times `2 ^ 24`
plus the cube colour. -/
theorem cube_sum_eq (r g b : Nat) (hr : r < 256) (hg : g < 256) (hb : b < 256) :
    cube_index_red r + cube_index_green g + cube_index_blue b
      = (16 + 36 * spec_level red_boundaries r + 6 * spec_level green_boundaries g
          + spec_level blue_boundaries b) * 0x1000000
        + packed (cube_value (spec_level red_boundaries r))
            (cube_value (spec_level green_boundaries g))
            (cube_value (spec_level blue_boundaries b)) := by
  rw [cube_index_red_spec r hr, cube_index_green_spec g hg, cube_index_blue_spec b hb]
  unfold packed
  ring

/-! ## Properties of the grey table, the quantisation and the distance -/

/-- C11, counterexample: the grey table is not chosen among the system greys.
At luminance 127 the entry is 244, whose colour `0x808080` is at distance 4606
from the grey `(127, 127, 127)`, while the system grey 8 has exactly that
colour, `0x7f7f7f`, at distance 0. -/
theorem grey_table_system_counterexample :
    127 ≤ 255 ∧ 8 ≤ 255 ∧ rgb_from_ansi256 8 = 0x7f7f7f ∧ is_pure_grey (rgb_from_ansi256 8)
      ∧ ansi256_from_grey.getD 127 0 = 244 ∧ rgb_from_ansi256 244 = 0x808080
      ∧ distance (packed 127 127 127) (rgb_from_ansi256 (ansi256_from_grey.getD 127 0)) = 4606
      ∧ distance (packed 127 127 127) (rgb_from_ansi256 8) = 0
      ∧ ¬ (distance (packed 127 127 127) (rgb_from_ansi256 (ansi256_from_grey.getD 127 0))
            ≤ distance (packed 127 127 127) (rgb_from_ansi256 8)) := by
  decide!

/-- C11, amended: for every luminance byte `l` the colour of the grey-table
entry has the smallest distance to the grey `(l, l, l)` among all palette
indices in `0..255` whose colour is a pure grey, except the system greys 7
(`0xe5e5e5`) and 8 (`0x7f7f7f`), which the table does not take into account;
the system greys 0 and 15 repeat the colours of the cube indices 16 and 231. -/
theorem grey_table_among_greys (l j : Nat) (hl : l ≤ 255) (hj : j ≤ 255)
    (hgrey : is_pure_grey (rgb_from_ansi256 j)) (h7 : j ≠ 7) (h8 : j ≠ 8) :
    distance (packed l l l) (rgb_from_ansi256 (ansi256_from_grey.getD l 0))
        ≤ distance (packed l l l) (rgb_from_ansi256 j)
      ∧ (rgb_from_ansi256 0 = 0x000000 ∧ rgb_from_ansi256 7 = 0xe5e5e5
        ∧ rgb_from_ansi256 8 = 0x7f7f7f ∧ rgb_from_ansi256 15 = 0xffffff
        ∧ rgb_from_ansi256 0 = rgb_from_ansi256 16
        ∧ rgb_from_ansi256 15 = rgb_from_ansi256 231) := by
  refine ⟨?_, system_greys⟩
  have hl256 : l < 256 := Nat.lt_succ_of_le hl
  have hj256 : j < 256 := Nat.lt_succ_of_le hj
  by_cases h16 : 16 ≤ j
  · have hiff := colours_forall
      (fun i x => 16 ≤ i → (is_grey_index i ↔ (R x = G x ∧ G x = B x)))
      grey_index_iff_aux j hj256 h16
    exact grey_table_nearest l j hl256 hj256 (hiff.mpr hgrey)
  · have hiff := colours_forall
      (fun i x => i < 16 → (is_pure_grey x ↔ i ∈ [0, 7, 8, 15]))
      system_grey_iff_aux j hj256 (Nat.lt_of_not_le h16)
    have hmem := hiff.mp hgrey
    simp only [List.mem_cons, List.mem_singleton, List.not_mem_nil, or_false] at hmem
    rcases hmem with rfl | rfl | rfl | rfl
    · rw [system_greys.2.2.2.2.1]
      exact grey_table_nearest l 16 hl256 (by decide) (by decide)
    · exact absurd rfl h7
    · exact absurd rfl h8
    · rw [system_greys.2.2.2.2.2]
      exact grey_table_nearest l 231 hl256 (by decide) (by decide)

/-- Witness of `grey_table_among_greys` at luminance 127 and the system grey
15. -/
theorem grey_table_among_greys_witness :
    distance (packed 127 127 127) (rgb_from_ansi256 (ansi256_from_grey.getD 127 0))
      ≤ distance (packed 127 127 127) (rgb_from_ansi256 15) :=
  (grey_table_among_greys 127 15 (by decide) (by decide) (by decide) (by decide)
    (by decide)).1

/-- C12: per-channel cube quantisation follows the thresholds exactly. For
every byte `v` the level chosen by `cube_index_red`, `cube_index_green` and
`cube_index_blue` is the number of boundaries of that channel (red 38, 115,
155, 196, 235; green 36, 116, 154, 195, 235; blue 35, 115, 155, 195, 235) not
above `v`, and the representative value is the entry of
`[0, 95, 135, 175, 215, 255]` at that level; a value on a boundary goes to the
higher level. -/
theorem cube_quantisation (v : Nat) (hv : v ≤ 255) :
    (cube_index_red v
          = IDX_red (spec_level red_boundaries v) (cube_value (spec_level red_boundaries v))
        ∧ cube_index_red v >>> 24 = 16 + 36 * spec_level red_boundaries v
        ∧ R (cube_index_red v) = cube_value (spec_level red_boundaries v))
      ∧ (cube_index_green v
          = IDX_green (spec_level green_boundaries v)
              (cube_value (spec_level green_boundaries v))
        ∧ cube_index_green v >>> 24 = 6 * spec_level green_boundaries v
        ∧ G (cube_index_green v) = cube_value (spec_level green_boundaries v))
      ∧ (cube_index_blue v
          = IDX_blue (spec_level blue_boundaries v) (cube_value (spec_level blue_boundaries v))
        ∧ cube_index_blue v >>> 24 = spec_level blue_boundaries v
        ∧ B (cube_index_blue v) = cube_value (spec_level blue_boundaries v))
      ∧ (red_boundaries = [38, 115, 155, 196, 235]
        ∧ green_boundaries = [36, 116, 154, 195, 235]
        ∧ blue_boundaries = [35, 115, 155, 195, 235]
        ∧ cube_values = [0, 95, 135, 175, 215, 255])
      ∧ ((∀ b ∈ red_boundaries,
          spec_level red_boundaries b = spec_level red_boundaries (b - 1) + 1)
        ∧ (∀ b ∈ green_boundaries,
          spec_level green_boundaries b = spec_level green_boundaries (b - 1) + 1)
        ∧ (∀ b ∈ blue_boundaries,
          spec_level blue_boundaries b = spec_level blue_boundaries (b - 1) + 1)) := by
  have hv256 : v < 256 := Nat.lt_succ_of_le hv
  obtain ⟨l1, l2, l3⟩ := cube_index_levels_aux v hv256
  obtain ⟨⟨f1, _⟩, ⟨f2, _⟩, ⟨f3, _⟩⟩ := cube_index_fields_aux v hv256
  have vr := cube_value_le (spec_level red_boundaries v)
  have vg := cube_value_le (spec_level green_boundaries v)
  have vb := cube_value_le (spec_level blue_boundaries v)
  have hr := spec_level_le red_boundaries v
  have hg := spec_level_le green_boundaries v
  have hb := spec_level_le blue_boundaries v
  have lr : red_boundaries.length = 5 := rfl
  have lg : green_boundaries.length = 5 := rfl
  have lb : blue_boundaries.length = 5 := rfl
  refine ⟨⟨l1, f1, ?_⟩, ⟨l2, f2, ?_⟩, ⟨l3, f3, ?_⟩, ⟨rfl, rfl, rfl, rfl⟩, boundary_levels⟩
  · rw [R_eq, cube_index_red_spec v hv256]; omega
  · rw [G_eq, cube_index_green_spec v hv256]; omega
  · rw [B_eq, cube_index_blue_spec v hv256]; omega

/-- Witness of `cube_quantisation` at the red boundary 38: level 1, value
95. -/
theorem cube_quantisation_witness :
    cube_index_red 38
        = IDX_red (spec_level red_boundaries 38) (cube_value (spec_level red_boundaries 38))
      ∧ cube_index_red 38 >>> 24 = 16 + 36 * spec_level red_boundaries 38
      ∧ R (cube_index_red 38) = cube_value (spec_level red_boundaries 38) :=
  (cube_quantisation 38 (by decide)).1

/-- C13: combining the three per-channel results. For all bytes `r`, `g`, `b`
the 32-bit sum of the three channel words does not wrap (the plain sum is
below `2 ^ 32`) and does not carry into the top byte (the top byte of the sum
is the sum of the three top bytes); its top byte is the index
`16 + 36*lr + 6*lg + lb` of the quantised levels, which lies in `16..231`, and
its low 24 bits are the table colour of that index. -/
theorem cube_sum (r g b : Nat) (hr : r ≤ 255) (hg : g ≤ 255) (hb : b ≤ 255) :
    cube_index_red r + cube_index_green g + cube_index_blue b < 2 ^ 32
      ∧ u32 (u32 (cube_index_red r + cube_index_green g) + cube_index_blue b)
        = cube_index_red r + cube_index_green g + cube_index_blue b
      ∧ (cube_index_red r + cube_index_green g + cube_index_blue b) >>> 24
        = cube_index_red r >>> 24 + cube_index_green g >>> 24 + cube_index_blue b >>> 24
      ∧ (cube_index_red r + cube_index_green g + cube_index_blue b) >>> 24
        = 16 + 36 * spec_level red_boundaries r + 6 * spec_level green_boundaries g
          + spec_level blue_boundaries b
      ∧ (16 ≤ 16 + 36 * spec_level red_boundaries r + 6 * spec_level green_boundaries g
            + spec_level blue_boundaries b
        ∧ 16 + 36 * spec_level red_boundaries r + 6 * spec_level green_boundaries g
            + spec_level blue_boundaries b ≤ 231)
      ∧ (cube_index_red r + cube_index_green g + cube_index_blue b) &&& 0xffffff
        = rgb_from_ansi256 (16 + 36 * spec_level red_boundaries r
            + 6 * spec_level green_boundaries g + spec_level blue_boundaries b) := by
  have hr256 : r < 256 := Nat.lt_succ_of_le hr
  have hg256 : g < 256 := Nat.lt_succ_of_le hg
  have hb256 : b < 256 := Nat.lt_succ_of_le hb
  have hsum := cube_sum_eq r g b hr256 hg256 hb256
  obtain ⟨⟨f1, _⟩, _, _⟩ := cube_index_fields_aux r hr256
  obtain ⟨_, ⟨f2, _⟩, _⟩ := cube_index_fields_aux g hg256
  obtain ⟨_, _, ⟨f3, _⟩⟩ := cube_index_fields_aux b hb256
  have vr := cube_value_le (spec_level red_boundaries r)
  have vg := cube_value_le (spec_level green_boundaries g)
  have vb := cube_value_le (spec_level blue_boundaries b)
  have sr := spec_level_le red_boundaries r
  have sg := spec_level_le green_boundaries g
  have sb := spec_level_le blue_boundaries b
  have lr : red_boundaries.length = 5 := rfl
  have lg : green_boundaries.length = 5 := rfl
  have lb : blue_boundaries.length = 5 := rfl
  have hcol := cube_entries_aux _ (Nat.lt_succ_of_le (lr ▸ sr)) _ (Nat.lt_succ_of_le (lg ▸ sg)) _
    (Nat.lt_succ_of_le (lb ▸ sb))
  have hmask : (cube_index_red r + cube_index_green g + cube_index_blue b) &&& 0xffffff
      = (cube_index_red r + cube_index_green g + cube_index_blue b) % 0x1000000 :=
    Nat.and_pow_two_sub_one_eq_mod _ 24
  have hlt : cube_index_red r + cube_index_green g + cube_index_blue b < 0x100000000 := by
    rw [hsum]; unfold packed; omega
  have hshift : (cube_index_red r + cube_index_green g + cube_index_blue b) >>> 24
      = 16 + 36 * spec_level red_boundaries r + 6 * spec_level green_boundaries g
        + spec_level blue_boundaries b := by
    rw [Nat.shiftRight_eq_div_pow, hsum]; unfold packed; omega
  have p32 : (2 : Nat) ^ 32 = 0x100000000 := by norm_num
  refine ⟨lt_of_lt_of_eq hlt p32.symm, ?_, ?_, hshift, ⟨by omega, by omega⟩, ?_⟩
  · rw [u32_eq_self (cube_index_red r + cube_index_green g) (by omega), u32_eq_self _ hlt]
  · rw [hshift, f1, f2, f3]
  · rw [hmask, hcol, hsum]; unfold packed; omega

/-- Witness of `cube_sum` at the bytes of `0x5f87af`: the plain sum does not
wrap. -/
theorem cube_sum_witness :
    cube_index_red 0x5f + cube_index_green 0x87 + cube_index_blue 0xaf < 2 ^ 32 :=
  (cube_sum 0x5f 0x87 0xaf (by decide) (by decide) (by decide)).1

/-- C14: the distance function computes the stated formula exactly. For all
32-bit `x` and `y`, with channels taken from the low 24 bits, the result is
the integer `(1024 + Rx + Ry)*(Rx - Ry)^2 + 2048*(Gx - Gy)^2
+ (1534 - Rx - Ry)*(Bx - By)^2`; every intermediate value of the `int32_t`
evaluation and the final value are representable in `int32_t`, and the result
is non-negative and below `2 ^ 31`. -/
theorem distance_exact (x y : Nat) (_hx : x < 2 ^ 32) (_hy : y < 2 ^ 32) :
    (distance x y : Int)
        = (1024 + (R x : Int) + (R y : Int)) * ((R x : Int) - (R y : Int)) ^ 2
          + 2048 * ((G x : Int) - (G y : Int)) ^ 2
          + (1534 - (R x : Int) - (R y : Int)) * ((B x : Int) - (B y : Int)) ^ 2
      ∧ (∀ t ∈ [(R x : Int) + (R y : Int),
            (R x : Int) - (R y : Int), (G x : Int) - (G y : Int), (B x : Int) - (B y : Int),
            1024 + ((R x : Int) + (R y : Int)),
            (1024 + ((R x : Int) + (R y : Int))) * ((R x : Int) - (R y : Int)),
            (1024 + ((R x : Int) + (R y : Int))) * ((R x : Int) - (R y : Int))
              * ((R x : Int) - (R y : Int)),
            2048 * ((G x : Int) - (G y : Int)),
            2048 * ((G x : Int) - (G y : Int)) * ((G x : Int) - (G y : Int)),
            1534 - ((R x : Int) + (R y : Int)),
            (1534 - ((R x : Int) + (R y : Int))) * ((B x : Int) - (B y : Int)),
            (1534 - ((R x : Int) + (R y : Int))) * ((B x : Int) - (B y : Int))
              * ((B x : Int) - (B y : Int)),
            (1024 + ((R x : Int) + (R y : Int))) * ((R x : Int) - (R y : Int))
                * ((R x : Int) - (R y : Int))
              + 2048 * ((G x : Int) - (G y : Int)) * ((G x : Int) - (G y : Int)),
            (1024 + ((R x : Int) + (R y : Int))) * ((R x : Int) - (R y : Int))
                * ((R x : Int) - (R y : Int))
              + 2048 * ((G x : Int) - (G y : Int)) * ((G x : Int) - (G y : Int))
              + (1534 - ((R x : Int) + (R y : Int))) * ((B x : Int) - (B y : Int))
                * ((B x : Int) - (B y : Int))],
          in_i32 t)
      ∧ 0 ≤ (distance x y : Int) ∧ (distance x y : Int) < 2 ^ 31 := by
  have hrx := R_lt x
  have hry := R_lt y
  have hgx := G_lt x
  have hgy := G_lt y
  have hbx := B_lt x
  have hby := B_lt y
  obtain ⟨_, c2, c3⟩ := distance_core (R x) (G x) (B x) (R y) (G y) (B y)
    (by omega) (by omega) (by omega) (by omega) (by omega) (by omega)
  obtain ⟨r1, r2, r3, r4⟩ := weighted_sq_bounds (1024 + ((R x : Int) + (R y : Int)))
    ((R x : Int) - (R y : Int)) (by omega) (by omega) (by omega) (by omega)
  obtain ⟨g1, g2, g3, g4⟩ := weighted_sq_bounds 2048
    ((G x : Int) - (G y : Int)) (by omega) (by omega) (by omega) (by omega)
  obtain ⟨b1, b2, b3, b4⟩ := weighted_sq_bounds (1534 - ((R x : Int) + (R y : Int)))
    ((B x : Int) - (B y : Int)) (by omega) (by omega) (by omega) (by omega)
  have hd := distance_eq x y
  refine ⟨?_, ?_, ?_, ?_⟩
  · rw [hd]; unfold distance_formula; ring
  · intro t ht
    simp only [List.mem_cons, List.mem_singleton, List.not_mem_nil, or_false] at ht
    unfold in_i32
    rcases ht with rfl | rfl | rfl | rfl | rfl | rfl | rfl | rfl | rfl | rfl | rfl | rfl
      | rfl | rfl <;> constructor <;> omega
  · rw [hd]; exact c2
  · rw [hd]; exact lt_of_lt_of_eq c3 (by norm_num)

/-- Witness of `distance_exact` at white against black. -/
theorem distance_exact_witness :
    (distance 0xffffff 0x000000 : Int)
      = (1024 + (R 0xffffff : Int) + (R 0x000000 : Int))
          * ((R 0xffffff : Int) - (R 0x000000 : Int)) ^ 2
        + 2048 * ((G 0xffffff : Int) - (G 0x000000 : Int)) ^ 2
        + (1534 - (R 0xffffff : Int) - (R 0x000000 : Int))
          * ((B 0xffffff : Int) - (B 0x000000 : Int)) ^ 2 :=
  (distance_exact 0xffffff 0x000000 (by decide) (by decide)).1

/-- C15, counterexample: smaller channel deltas do not always give a smaller
distance. Against `x = (100, 0, 0)` the colour `y = (150, 0, 0)` has the deltas
50, 0, 0 and `z = (49, 1, 1)` has the deltas 51, 1, 1, yet the distance to `y`
is 3185000 and the distance to `z` is 3054406: the red weight grows with the
red of the second colour. -/
theorem distance_monotone_counterexample :
    |((R 0x640000 : Nat) : Int) - (R 0x960000 : Nat)|
        < |((R 0x640000 : Nat) : Int) - (R 0x310101 : Nat)|
      ∧ |((G 0x640000 : Nat) : Int) - (G 0x960000 : Nat)|
        < |((G 0x640000 : Nat) : Int) - (G 0x310101 : Nat)|
      ∧ |((B 0x640000 : Nat) : Int) - (B 0x960000 : Nat)|
        < |((B 0x640000 : Nat) : Int) - (B 0x310101 : Nat)|
      ∧ distance 0x640000 0x960000 = 3185000 ∧ distance 0x640000 0x310101 = 3054406
      ∧ ¬ (distance 0x640000 0x960000 < distance 0x640000 0x310101) := by
  decide!

/-- The order of two distances from a common reference, on squared channel
differences: strictly smaller squares give a strictly smaller weighted sum
when the shift of weight between the red and the blue term does not favour the
farther colour, and in all cases up to the ratio of the extreme weights. -/
theorem weighted_order (s ry rz ay az gy gz by_ bz : Int)
    (hs0 : 0 ≤ s) (hry0 : 0 ≤ ry) (hry : ry ≤ 255) (hrz0 : 0 ≤ rz) (hrz : rz ≤ 255)
    (hs : s ≤ 255) (hay : 0 ≤ ay) (hgy : 0 ≤ gy) (hby : 0 ≤ by_)
    (ha : ay < az) (hg : gy < gz) (hb : by_ < bz) :
    (((ry - rz) * (az - bz) ≤ 0 ∨ (ry - rz) * (ay - by_) ≤ 0) →
        (1024 + (s + ry)) * ay + 2048 * gy + (1534 - (s + ry)) * by_
          < (1024 + (s + rz)) * az + 2048 * gz + (1534 - (s + rz)) * bz)
      ∧ 1024 * ((1024 + (s + ry)) * ay + 2048 * gy + (1534 - (s + ry)) * by_)
          < 1534 * ((1024 + (s + rz)) * az + 2048 * gz + (1534 - (s + rz)) * bz) := by
  have wy : (0 : Int) < 1024 + (s + ry) := by omega
  have wz : (0 : Int) < 1024 + (s + rz) := by omega
  have uy : (0 : Int) < 1534 - (s + ry) := by omega
  have uz : (0 : Int) < 1534 - (s + rz) := by omega
  constructor
  · rintro (h | h)
    · have t1 : (1024 + (s + ry)) * ay < (1024 + (s + ry)) * az := mul_lt_mul_of_pos_left ha wy
      have t2 : (1534 - (s + ry)) * by_ < (1534 - (s + ry)) * bz := mul_lt_mul_of_pos_left hb uy
      have e : (1024 + (s + rz)) * az + (1534 - (s + rz)) * bz
          = (1024 + (s + ry)) * az + (1534 - (s + ry)) * bz - (ry - rz) * (az - bz) := by ring
      linarith
    · have t1 : (1024 + (s + rz)) * ay < (1024 + (s + rz)) * az := mul_lt_mul_of_pos_left ha wz
      have t2 : (1534 - (s + rz)) * by_ < (1534 - (s + rz)) * bz := mul_lt_mul_of_pos_left hb uz
      have e : (1024 + (s + ry)) * ay + (1534 - (s + ry)) * by_
          = (1024 + (s + rz)) * ay + (1534 - (s + rz)) * by_ + (ry - rz) * (ay - by_) := by ring
      linarith
  · have t1 : (1024 + (s + ry)) * ay ≤ 1534 * ay := mul_le_mul_of_nonneg_right (by omega) hay
    have t2 : (1534 - (s + ry)) * by_ ≤ 1534 * by_ := mul_le_mul_of_nonneg_right (by omega) hby
    have t3 : 1024 * az ≤ (1024 + (s + rz)) * az :=
      mul_le_mul_of_nonneg_right (by omega) (le_trans hay (le_of_lt ha))
    have t4 : 1024 * bz ≤ (1534 - (s + rz)) * bz :=
      mul_le_mul_of_nonneg_right (by omega) (le_trans hby (le_of_lt hb))
    linarith

/-- C15, amended: monotonicity of the distance against a common reference.
For all colours `x`, `y`, `z`, if every raw channel delta of `y` from `x` is
strictly smaller than the corresponding delta of `z` from `x`, then
`1024 * distance(x, y) < 1534 * distance(x, z)`, and
`distance(x, y) < distance(x, z)` whenever the shift of weight between the red
and the blue term does not favour `z`, that is when
`(Ry - Rz) * ((Rx - Rz)^2 - (Bx - Bz)^2) ≤ 0` or
`(Ry - Rz) * ((Rx - Ry)^2 - (Bx - By)^2) ≤ 0`. -/
theorem distance_monotone_guarded (x y z : Nat)
    (hr : |((R x : Nat) : Int) - (R y : Nat)| < |((R x : Nat) : Int) - (R z : Nat)|)
    (hg : |((G x : Nat) : Int) - (G y : Nat)| < |((G x : Nat) : Int) - (G z : Nat)|)
    (hb : |((B x : Nat) : Int) - (B y : Nat)| < |((B x : Nat) : Int) - (B z : Nat)|) :
    ((((R y : Int) - (R z : Int))
            * (((R x : Int) - (R z : Int)) ^ 2 - ((B x : Int) - (B z : Int)) ^ 2) ≤ 0
          ∨ ((R y : Int) - (R z : Int))
            * (((R x : Int) - (R y : Int)) ^ 2 - ((B x : Int) - (B y : Int)) ^ 2) ≤ 0) →
        distance x y < distance x z)
      ∧ 1024 * distance x y < 1534 * distance x z := by
  have hrx := R_lt x
  have hry := R_lt y
  have hrz := R_lt z
  have hy := distance_eq x y
  have hz := distance_eq x z
  unfold distance_formula at hy hz
  obtain ⟨h1, h2⟩ := weighted_order (R x) (R y) (R z)
    (((R x : Int) - R y) ^ 2) (((R x : Int) - R z) ^ 2)
    (((G x : Int) - G y) ^ 2) (((G x : Int) - G z) ^ 2)
    (((B x : Int) - B y) ^ 2) (((B x : Int) - B z) ^ 2)
    (by omega) (by omega) (by omega) (by omega) (by omega) (by omega)
    (sq_nonneg _) (sq_nonneg _) (sq_nonneg _) (sq_lt_sq.mpr hr) (sq_lt_sq.mpr hg) (sq_lt_sq.mpr hb)
  rw [← hy, ← hz] at h1 h2
  constructor
  · intro hc
    exact_mod_cast h1 hc
  · exact_mod_cast h2

/-- Witness of `distance_monotone_guarded` at `x = (100, 0, 0)`,
`y = (120, 0, 0)`, `z = (150, 1, 1)`, where the first side condition holds. -/
theorem distance_monotone_guarded_witness :
    distance 0x640000 0x780000 < distance 0x640000 0x960101
      ∧ 1024 * distance 0x640000 0x780000 < 1534 * distance 0x640000 0x960101 :=
  ⟨(distance_monotone_guarded 0x640000 0x780000 0x960101 (by decide) (by decide)
      (by decide)).1 (Or.inl (by decide)),
    (distance_monotone_guarded 0x640000 0x780000 0x960101 (by decide) (by decide)
      (by decide)).2⟩

/-- C16: self-distance. For every 32-bit value `c`, `distance(c, c) = 0`. -/
theorem self_distance (c : Nat) (_h32 : c < 2 ^ 32) : distance c c = 0 :=
  (distance_eq_zero_iff c c).mpr ⟨rfl, rfl, rfl⟩

/-- Witness of `self_distance` at `0xff5f87af`. -/
theorem self_distance_witness : distance 0xff5f87af 0xff5f87af = 0 :=
  self_distance 0xff5f87af (by decide)

/-- C17: luminance is the rounded fixed-point weighted sum. For every 32-bit
`rgb` with channels taken from the low 24 bits, the result is
`floor((3567664*R + 11998547*G + 1211005*B + 2^23) / 2^24)`; the sum with the
half unit added stays below `2 ^ 32`, so the `uint32_t` arithmetic never
wraps, and the quotient is at most 255, so the narrowing to `uint8_t` loses
nothing. -/
theorem luminance_exact (rgb : Nat) (_h32 : rgb < 2 ^ 32) :
    luminance rgb
        = (3567664 * R rgb + 11998547 * G rgb + 1211005 * B rgb + 2 ^ 23) / 2 ^ 24
      ∧ 3567664 * R rgb + 11998547 * G rgb + 1211005 * B rgb + 2 ^ 23 < 2 ^ 32
      ∧ (3567664 * R rgb + 11998547 * G rgb + 1211005 * B rgb + 2 ^ 23) / 2 ^ 24 ≤ 255
      ∧ luminance rgb ≤ 255 := by
  obtain ⟨h1, h2, h3⟩ := luminance_eq rgb
  have p23 : (2 : Nat) ^ 23 = 0x800000 := by norm_num
  have p24 : (2 : Nat) ^ 24 = 0x1000000 := by norm_num
  have p32 : (2 : Nat) ^ 32 = 0x100000000 := by norm_num
  rw [p23, p24, p32]
  exact ⟨h2, h1, h3, h2 ▸ h3⟩

/-- Witness of `luminance_exact` at white, where the sum is largest. -/
theorem luminance_exact_witness :
    luminance 0xffffff
        = (3567664 * R 0xffffff + 11998547 * G 0xffffff + 1211005 * B 0xffffff + 2 ^ 23)
          / 2 ^ 24
      ∧ 3567664 * R 0xffffff + 11998547 * G 0xffffff + 1211005 * B 0xffffff + 2 ^ 23 < 2 ^ 32
      ∧ (3567664 * R 0xffffff + 11998547 * G 0xffffff + 1211005 * B 0xffffff + 2 ^ 23)
          / 2 ^ 24 ≤ 255
      ∧ luminance 0xffffff ≤ 255 :=
  luminance_exact 0xffffff (by decide)

/-- C18: pure-grey inputs get a globally nearest entry. For every byte `v`,
with `c = (v, v, v)`, the colour of the returned index is at least as near to
`c` as the colour of every index `j` in `16..255`, grey or not. -/
theorem pure_grey_nearest (v j : Nat) (hv : v ≤ 255) (h16 : 16 ≤ j) (h255 : j ≤ 255) :
    distance (packed v v v) (rgb_from_ansi256 (ansi256_from_rgb (packed v v v)))
      ≤ distance (packed v v v) (rgb_from_ansi256 j) :=
  pure_grey_nearest_aux v j (Nat.lt_succ_of_le hv) h16 h255

/-- Witness of `pure_grey_nearest` at the grey 36, where the three channels
quantise to different cube levels, against the cube index 23. -/
theorem pure_grey_nearest_witness :
    distance (packed 36 36 36) (rgb_from_ansi256 (ansi256_from_rgb (packed 36 36 36)))
      ≤ distance (packed 36 36 36) (rgb_from_ansi256 23) :=
  pure_grey_nearest 36 23 (by decide) (by decide) (by decide)

/-- C19: approximation is idempotent through the palette. For every 32-bit
colour `c`, approximating the table colour of the index returned for `c`
returns that index again. -/
theorem approximation_idempotent (c : Nat) (_h32 : c < 2 ^ 32) :
    ansi256_from_rgb (rgb_from_ansi256 (ansi256_from_rgb c)) = ansi256_from_rgb c := by
  have hg := grey_index_range c
  have hc := cube_shift_range c
  have hrange : 16 ≤ ansi256_from_rgb c ∧ ansi256_from_rgb c ≤ 255 := by
    rw [ansi256_from_rgb_eq]
    split <;> omega
  exact round_trip_aux _ (Nat.lt_succ_of_le hrange.2) hrange.1

/-- Witness of `approximation_idempotent` at `0x00000d`. -/
theorem approximation_idempotent_witness :
    ansi256_from_rgb (rgb_from_ansi256 (ansi256_from_rgb 0x00000d))
      = ansi256_from_rgb 0x00000d :=
  approximation_idempotent 0x00000d (by decide)

/-- C20: the distance is zero only for equal colours. For all 32-bit `x` and
`y`, `distance(x, y) = 0` exactly when `x` and `y` agree on their low 24 bits,
and all three channel weights are strictly positive. -/
theorem distance_zero_iff (x y : Nat) (_hx : x < 2 ^ 32) (_hy : y < 2 ^ 32) :
    (distance x y = 0 ↔ x &&& 0xffffff = y &&& 0xffffff)
      ∧ (0 : Int) < 1024 + ((R x : Int) + (R y : Int))
      ∧ (0 : Int) < 2048
      ∧ (0 : Int) < 1534 - ((R x : Int) + (R y : Int)) := by
  obtain ⟨w1, w2⟩ := weights_pos x y
  exact ⟨(distance_eq_zero_iff x y).trans (low24_eq_iff x y).symm, w1, by norm_num, w2⟩

/-- Witness of `distance_zero_iff` at two values that differ in the top byte
only. -/
theorem distance_zero_iff_witness :
    distance 0xff5f87af 0x005f87af = 0 ↔ 0xff5f87af &&& 0xffffff = 0x005f87af &&& 0xffffff :=
  (distance_zero_iff 0xff5f87af 0x005f87af (by decide) (by decide)).1

end Ansi256
